import Mathlib

/-!
Shallow embedding of the in-memory TTL cache of medvedev-v/in-memory-cache.

Two variants live in the repository and both are embedded here:

* `MemCache` embeds `pkg/cache/inmemory.go`: a map from string keys to
  items carrying a value and an absolute expiration (UnixNano), plus a
  binary min-heap (`container/heap` over `expirationQueue`) ordered by
  expiration.  The map is modelled as an association list (Go map keys
  are unique), the heap as a list of keys whose positions are the heap
  indices; an item state is read through the key, mirroring the shared
  `*cacheItem` pointers.  `time.Now().UnixNano()` is passed in as an
  explicit `now : Int` argument at each operation, exactly where the Go
  code reads the clock.  Go for-loops are modelled by structural
  recursion on a fuel argument that provably dominates the number of
  iterations (the heap sift loops move their index strictly towards an
  end of the array); `deleteExpired` uses the fuel written in the
  source itself (`maxCleanup = 100`).

* `HttpCache` embeds the `Cache` type of `main.go`: a plain map with a
  linear-scan `evictOne` (smallest expiration wins, ties keep the first
  entry encountered; the association list fixes one iteration order for
  the Go map).

The `stop` channel of each variant is modelled by a `stopClosed` flag;
closing an already-closed Go channel is a runtime panic, rendered as
`none` from `Stop`.  `time.NewTicker` panics on a non-positive
duration (Go standard library behaviour), rendered as `none` from
`newTicker`; the second component of `New` records whether the spawned
cleanup goroutine survives its first statement.
-/

namespace MemCache

/-- One `cacheItem` of `pkg/cache/inmemory.go` (its `key` is the
association-list key, its `index` the position in the heap list). -/
structure Item (α : Type) where
  value : α
  expiration : Int
deriving DecidableEq, Repr

/-- The `InMemoryCache` struct: key→item map, expiration heap, cleanup
interval, capacity bound, and the stop-channel state. -/
structure IMCache (α : Type) where
  items : List (String × Item α)
  expQueue : List String
  interval : Int
  maxSize : Int
  stopClosed : Bool
deriving DecidableEq, Repr

/-- Go map read `c.items[key]`. -/
def lookup {α : Type} (items : List (String × Item α)) (key : String) : Option (Item α) :=
  (items.find? (fun p => p.1 == key)).map (fun p => p.2)

/-- The expiration a heap entry carries: the heap shares the `cacheItem`
with the map, so the key determines it. -/
def expOf {α : Type} (items : List (String × Item α)) (k : String) : Int :=
  match lookup items k with
  | some it => it.expiration
  | none => 0

/-- The key set of the map, as a list. -/
def keysOf {α : Type} (c : IMCache α) : List String :=
  c.items.map (fun p => p.1)

/-- `expirationQueue.Swap(i, j)` (the stored indices are the positions
in the list, so only the two slots move). -/
def listSwap (q : List String) (i j : Nat) : List String :=
  (q.set i (q.getD j (""))).set j (q.getD i (""))

/-- `expirationQueue.Less(i, j)`: compare the expirations at two heap
positions. -/
def lessAt (e : String → Int) (q : List String) (i j : Nat) : Bool :=
  decide (e (q.getD i ("")) < e (q.getD j ("")))

/-- `container/heap`'s `up` sift loop.  The loop index moves from `j`
to `(j-1)/2` each iteration, so any fuel of at least `j` iterations is
enough; callers pass `j + 1`. -/
def heapUp (e : String → Int) : List String → Nat → Nat → List String
  | q, _, 0 => q
  | q, j, fuel + 1 =>
    let i := (j - 1) / 2
    if i = j then q
    else if lessAt e q j i then heapUp e (listSwap q i j) i fuel
    else q

/-- `container/heap`'s `down` sift loop, returning the final index as
well (the Go function returns `i > i0`).  The index at least doubles
each iteration and stays below `n`, so fuel `n + 1` dominates the
iteration count.  (Go's `j1 < 0` overflow guard cannot fire on `Nat`.) -/
def heapDownAux (e : String → Int) : List String → Nat → Nat → Nat → List String × Nat
  | q, i, _, 0 => (q, i)
  | q, i, n, fuel + 1 =>
    let j1 := 2 * i + 1
    if j1 ≥ n then (q, i)
    else
      let j := if j1 + 1 < n ∧ lessAt e q (j1 + 1) j1 then j1 + 1 else j1
      if lessAt e q j i then heapDownAux e (listSwap q i j) j n fuel
      else (q, i)

/-- `heap.down(h, i0, n)` with its boolean result. -/
def heapDown (e : String → Int) (q : List String) (i0 n : Nat) : List String × Bool :=
  let r := heapDownAux e q i0 n (n + 1)
  (r.1, decide (i0 < r.2))

/-- `heap.Push`: append, then sift the last position up. -/
def heapPush (e : String → Int) (q : List String) (k : String) : List String :=
  let q1 := q ++ [k]
  heapUp e q1 (q1.length - 1) q1.length

/-- `heap.Pop`: swap the root to the last slot, sift the root down over
the shortened prefix, then remove and return the last element (the old
root). -/
def heapPop (e : String → Int) (q : List String) : List String × String :=
  let n := q.length - 1
  let q1 := listSwap q 0 n
  let q2 := (heapDown e q1 0 n).1
  (q2.dropLast, q2.getLastD (""))

/-- `heap.Fix(h, i)`. -/
def heapFix (e : String → Int) (q : List String) (i : Nat) : List String :=
  let r := heapDown e q i q.length
  if r.2 then r.1 else heapUp e r.1 i (i + 1)

/-- `heap.Remove(h, i)` (the removed element, returned by Go, is
dropped by the caller `Delete`). -/
def heapRemove (e : String → Int) (q : List String) (i : Nat) : List String :=
  let n := q.length - 1
  if n ≠ i then
    let q1 := listSwap q i n
    let r := heapDown e q1 i n
    let q2 := if r.2 then r.1 else heapUp e r.1 i (i + 1)
    q2.dropLast
  else q.dropLast

/-- The `index` field of the item for `k`: its position in the heap
list (`Swap`, `Push` and `Pop` keep the field equal to the position). -/
def indexOfKey (q : List String) (k : String) : Nat :=
  q.indexOf k

/-- `time.NewTicker` panics on a non-positive duration (Go standard
library behaviour), modelled as `none`. -/
def newTicker (interval : Int) : Option Unit :=
  if interval ≤ 0 then none else some ()

/-- The first statement of the background `cleanup` goroutine:
creating the ticker.  `none` means the goroutine panics. -/
def cleanupStart {α : Type} (c : IMCache α) : Option Unit :=
  newTicker c.interval

/-- `New(cleanupInterval, maxSize)`: the fresh cache, paired with the
fate of the spawned cleanup goroutine. -/
def New (α : Type) (cleanupInterval maxSize : Int) : IMCache α × Option Unit :=
  let c : IMCache α :=
    { items := [], expQueue := [], interval := cleanupInterval,
      maxSize := maxSize, stopClosed := false }
  (c, cleanupStart c)

/-- The loop body of `deleteExpired`, recursing on the remaining
`maxCleanup` budget (which the source sets to 100). -/
def deleteExpiredAux {α : Type} : IMCache α → Int → Nat → IMCache α
  | c, _, 0 => c
  | c, now, m + 1 =>
    if c.expQueue.length > 0 then
      -- `oldest := c.expQueue[0]`; its expiration decides the break
      if expOf c.items (c.expQueue.headD ("")) > now then c
      else
        let r := heapPop (expOf c.items) c.expQueue
        deleteExpiredAux
          { c with items := c.items.filter (fun p => p.1 != r.2), expQueue := r.1 }
          now m
    else c

/-- `deleteExpired`: pop expired roots (expiration ≤ now), at most 100
per call. -/
def deleteExpired {α : Type} (c : IMCache α) (now : Int) : IMCache α :=
  deleteExpiredAux c now 100

/-- The capacity path of `Set` for a new key (lines 86–97 of the
source): when at capacity, first drop expired roots, then — if still at
capacity — pop the heap minimum and delete it from the map. -/
def setEvict {α : Type} (c : IMCache α) (now : Int) : IMCache α :=
  if 0 < c.maxSize ∧ (c.items.length : Int) ≥ c.maxSize then
    let cd := deleteExpired c now
    if (cd.items.length : Int) ≥ cd.maxSize then
      if cd.expQueue.length > 0 then
        let r := heapPop (expOf cd.items) cd.expQueue
        { cd with items := cd.items.filter (fun p => p.1 != r.2), expQueue := r.1 }
      else cd
    else cd
  else c

/-- `Set(key, value, ttl)` at clock reading `now`.  An existing key is
updated in place and its heap position fixed; a new key first triggers
the capacity path, then is pushed. -/
def Set {α : Type} (c : IMCache α) (key : String) (value : α) (ttl now : Int) : IMCache α :=
  let expiration := now + ttl
  match lookup c.items key with
  | some _ =>
    let items := c.items.map (fun p => if p.1 == key then (p.1, ⟨value, expiration⟩) else p)
    { c with items := items,
             expQueue := heapFix (expOf items) c.expQueue (indexOfKey c.expQueue key) }
  | none =>
    let c1 := setEvict c now
    let items := c1.items ++ [(key, ⟨value, expiration⟩)]
    { c1 with items := items, expQueue := heapPush (expOf items) c1.expQueue key }

/-- `Get(key)` at clock reading `now`: `none` is `(nil, false)`.  The
Go code holds only a read lock and mutates nothing, so the embedding is
a pure function of the state. -/
def Get {α : Type} (c : IMCache α) (key : String) (now : Int) : Option α :=
  match lookup c.items key with
  | none => none
  | some item => if now > item.expiration then none else some item.value

/-- `Delete(key)`: remove the heap entry at the item's index and the
map entry; a miss is a no-op. -/
def Delete {α : Type} (c : IMCache α) (key : String) : IMCache α :=
  match lookup c.items key with
  | some _ =>
    { c with items := c.items.filter (fun p => p.1 != key),
             expQueue := heapRemove (expOf c.items) c.expQueue (indexOfKey c.expQueue key) }
  | none => c

/-- `Exists(key)` at clock reading `now`. -/
def ExistsKey {α : Type} (c : IMCache α) (key : String) (now : Int) : Bool :=
  match lookup c.items key with
  | some item => decide (now ≤ item.expiration)
  | none => false

/-- `Keys()` at clock reading `now`: the keys whose expiration has not
passed (`now ≤ expiration`), in map order. -/
def Keys {α : Type} (c : IMCache α) (now : Int) : List String :=
  (c.items.filter (fun p => decide (now ≤ p.2.expiration))).map (fun p => p.1)

/-- `Size()`: `len(c.items)`, the physically present entries (the
source comment says so: including expired ones). -/
def Size {α : Type} (c : IMCache α) : Nat :=
  c.items.length

/-- `Cleanup()` at clock reading `now`. -/
def Cleanup {α : Type} (c : IMCache α) (now : Int) : IMCache α :=
  deleteExpired c now

/-- `Stop()`: `close(c.stop)`.  Closing an already-closed channel
panics at runtime, modelled as `none`. -/
def Stop {α : Type} (c : IMCache α) : Option (IMCache α) :=
  if c.stopClosed then none else some { c with stopClosed := true }

/-- The number of live (non-expired) entries at `now`. -/
def liveCount {α : Type} (c : IMCache α) (now : Int) : Nat :=
  (Keys c now).length

/-- Map/heap consistency: the heap holds exactly the map's keys (which
are distinct, as Go map keys are).  Every reachable cache state
satisfies this. -/
def WF {α : Type} (c : IMCache α) : Prop :=
  c.expQueue.Perm (keysOf c) ∧ (keysOf c).Nodup

instance {α : Type} (c : IMCache α) : Decidable (WF c) := by
  unfold WF; infer_instance

end MemCache

namespace HttpCache

/-- One `cacheItem` of `main.go`. -/
structure MItem (α : Type) where
  value : α
  expiration : Int
deriving DecidableEq, Repr

/-- The `Cache` struct of `main.go`. -/
structure MCache (α : Type) where
  items : List (String × MItem α)
  interval : Int
  maxSize : Int
  stopClosed : Bool
deriving DecidableEq, Repr

/-- Go map read `c.items[key]`. -/
def mLookup {α : Type} (items : List (String × MItem α)) (key : String) : Option (MItem α) :=
  (items.find? (fun p => p.1 == key)).map (fun p => p.2)

/-- `evictOne`: linear scan for the smallest expiration (strict `<`
against an accumulator starting at `math.MaxInt64`, so ties keep the
first entry of the iteration), then delete that key.  The association
list fixes one iteration order for the Go map. -/
def evictOne {α : Type} (c : MCache α) : MCache α :=
  let r := c.items.foldl
    (fun acc p => if p.2.expiration < acc.2 then (p.1, p.2.expiration) else acc)
    ((""), (2 : Int) ^ 63 - 1)
  { c with items := c.items.filter (fun p => p.1 != r.1) }

/-- `Set` of `main.go`: evict when at capacity (before even looking
whether the key already exists), then write the map slot. -/
def mSet {α : Type} (c : MCache α) (key : String) (value : α) (ttl now : Int) : MCache α :=
  let c1 :=
    if 0 < c.maxSize ∧ (c.items.length : Int) ≥ c.maxSize then evictOne c else c
  let it : MItem α := ⟨value, now + ttl⟩
  if (c1.items.find? (fun p => p.1 == key)).isSome then
    { c1 with items := c1.items.map (fun p => if p.1 == key then (p.1, it) else p) }
  else
    { c1 with items := c1.items ++ [(key, it)] }

/-- `Get` of `main.go` (read lock only; pure). -/
def mGet {α : Type} (c : MCache α) (key : String) (now : Int) : Option α :=
  match mLookup c.items key with
  | none => none
  | some item => if now > item.expiration then none else some item.value

/-- `Delete` of `main.go`: unconditional map delete. -/
def mDelete {α : Type} (c : MCache α) (key : String) : MCache α :=
  { c with items := c.items.filter (fun p => p.1 != key) }

/-- `Exists` of `main.go`. -/
def mExistsKey {α : Type} (c : MCache α) (key : String) (now : Int) : Bool :=
  match mLookup c.items key with
  | some item => decide (now ≤ item.expiration)
  | none => false

/-- `Keys` of `main.go`. -/
def mKeys {α : Type} (c : MCache α) (now : Int) : List String :=
  (c.items.filter (fun p => decide (now ≤ p.2.expiration))).map (fun p => p.1)

/-- One tick of the `cleanup` goroutine's loop body: delete every
entry with `now > Expiration`. -/
def mCleanupTick {α : Type} (c : MCache α) (now : Int) : MCache α :=
  { c with items := c.items.filter (fun p => decide (now ≤ p.2.expiration)) }

/-- `Stop` of `main.go`: `close(c.stop)`, panicking (`none`) when the
channel is already closed. -/
def mStop {α : Type} (c : MCache α) : Option (MCache α) :=
  if c.stopClosed then none else some { c with stopClosed := true }

/-- `NewCache(cleanupInterval, maxSize)` with the fate of its spawned
cleanup goroutine (whose first statement is `time.NewTicker`). -/
def mNew (α : Type) (cleanupInterval maxSize : Int) : MCache α × Option Unit :=
  let c : MCache α :=
    { items := [], interval := cleanupInterval, maxSize := maxSize, stopClosed := false }
  (c, MemCache.newTicker cleanupInterval)

end HttpCache

/-! ## Helper lemmas: heap operations permute the queue -/

namespace MemCache

lemma length_listSwap (q : List String) (i j : Nat) :
    (listSwap q i j).length = q.length := by
  simp [listSwap]

lemma listSwap_perm (q : List String) (i j : Nat)
    (hi : i < q.length) (hj : j < q.length) : (listSwap q i j).Perm q := by
  have hx : q.getD j ("") = q[j] := List.getD_eq_getElem q ("") hj
  have hy : q.getD i ("") = q[i] := List.getD_eq_getElem q ("") hi
  rw [listSwap, List.perm_iff_count]
  intro b
  have hj2 : j < (q.set i (q.getD j (""))).length := by
    simpa using hj
  have c2 := List.count_set (q.getD i ("")) b (q.set i (q.getD j (""))) j hj2
  have c1 := List.count_set (q.getD j ("")) b q i hi
  rw [c2, c1]
  simp only [List.getElem_set, hx, hy, ite_self]
  have hcnt_i : q[i] = b → 1 ≤ List.count b q := fun h =>
    List.count_pos_iff.2 (h ▸ List.getElem_mem hi)
  have hcnt_j : q[j] = b → 1 ≤ List.count b q := fun h =>
    List.count_pos_iff.2 (h ▸ List.getElem_mem hj)
  by_cases h1 : q[i] = b
  · have k1 := hcnt_i h1
    by_cases h2 : q[j] = b <;> simp [h1, h2] <;> omega
  · by_cases h2 : q[j] = b
    · have k2 := hcnt_j h2
      simp [h1, h2]
    · simp [h1, h2]

lemma heapDownAux_perm (e : String → Int) :
    ∀ (fuel : Nat) (q : List String) (i n : Nat), n ≤ q.length →
      ((heapDownAux e q i n fuel).1).Perm q
  | 0, q, i, n, _ => by simp [heapDownAux]
  | fuel + 1, q, i, n, hn => by
    rw [heapDownAux]
    by_cases hguard : 2 * i + 1 ≥ n
    · simp [hguard]
    · simp only [if_neg hguard]
      set j := if 2 * i + 1 + 1 < n ∧ lessAt e q (2 * i + 1 + 1) (2 * i + 1) then
        2 * i + 1 + 1 else 2 * i + 1 with hjdef
      have hjn : j < n := by
        rw [hjdef]
        split
        · omega
        · omega
      have hin : i < n := by omega
      by_cases hless : lessAt e q j i
      · simp only [hless, if_true]
        have hswap := listSwap_perm q i j (lt_of_lt_of_le hin hn) (lt_of_lt_of_le hjn hn)
        have hlen : n ≤ (listSwap q i j).length := by
          rw [length_listSwap]; exact hn
        exact (heapDownAux_perm e fuel (listSwap q i j) j n hlen).trans hswap
      · simp [hless]

lemma heapPop_append_perm (e : String → Int) (q : List String) (hq : q ≠ []) :
    ((heapPop e q).1 ++ [(heapPop e q).2]).Perm q := by
  have hlen : 0 < q.length := List.length_pos.2 hq
  have hn : q.length - 1 < q.length := by omega
  have h1 : (listSwap q 0 (q.length - 1)).Perm q := listSwap_perm q 0 (q.length - 1) hlen hn
  have hlen1 : q.length - 1 ≤ (listSwap q 0 (q.length - 1)).length := by
    rw [length_listSwap]; omega
  have h2 := heapDownAux_perm e (q.length - 1 + 1) (listSwap q 0 (q.length - 1)) 0
    (q.length - 1) hlen1
  have h3 : ((heapDownAux e (listSwap q 0 (q.length - 1)) 0 (q.length - 1)
      (q.length - 1 + 1)).1).Perm q := h2.trans h1
  set q2 := (heapDownAux e (listSwap q 0 (q.length - 1)) 0 (q.length - 1)
    (q.length - 1 + 1)).1 with hq2
  have hq2len : q2.length = q.length := h3.length_eq
  have hq2ne : q2 ≠ [] := by
    intro h
    rw [h] at hq2len
    simp at hq2len
    omega
  have hlast : q2.getLastD ("") = q2.getLast hq2ne := by
    rw [List.getLastD_eq_getLast?, List.getLast?_eq_getLast_of_ne_nil hq2ne]
    rfl
  have hsplit : q2.dropLast ++ [q2.getLast hq2ne] = q2 := List.dropLast_append_getLast hq2ne
  show ((q2.dropLast) ++ [q2.getLastD ("")]).Perm q
  rw [hlast, hsplit]
  exact h3

end MemCache

/-! ## Helper lemmas: map lookups -/

namespace MemCache

lemma lookup_eq_none_iff {α : Type} (items : List (String × Item α)) (key : String) :
    lookup items key = none ↔ key ∉ items.map (fun p => p.1) := by
  simp only [lookup, Option.map_eq_none', List.find?_eq_none, List.mem_map]
  constructor
  · rintro h ⟨p, hp, rfl⟩
    exact h p hp (by simp)
  · intro h p hp hkey
    exact h ⟨p, hp, by simpa using hkey⟩

lemma map_fst_filter_ne {α : Type} (items : List (String × Item α)) (k : String) :
    (items.filter (fun p => p.1 != k)).map (fun p => p.1)
      = (items.map (fun p => p.1)).filter (fun s => s != k) := by
  rw [List.filter_map]
  rfl

lemma lookup_append_self {α : Type} (l : List (String × Item α)) (key : String)
    (it : Item α) (h : lookup l key = none) :
    lookup (l ++ [(key, it)]) key = some it := by
  have hfind : l.find? (fun p => p.1 == key) = none := by
    simpa [lookup] using h
  simp [lookup, List.find?_append, hfind]

lemma lookup_map_update_self {α : Type} (l : List (String × Item α)) (key : String)
    (v : α) (e₀ : Int) (h : (lookup l key).isSome) :
    lookup (l.map (fun p => if p.1 == key then (p.1, (⟨v, e₀⟩ : Item α)) else p)) key
      = some ⟨v, e₀⟩ := by
  induction l with
  | nil => simp [lookup] at h
  | cons p l ih =>
    by_cases hp : p.1 = key
    · simp [lookup, hp]
    · have h2 : (lookup l key).isSome := by
        simpa [lookup, List.find?_cons, hp] using h
      simpa [lookup, List.find?_cons, hp] using ih h2

lemma lookup_map_update_ne {α : Type} (l : List (String × Item α)) (key k2 : String)
    (v : α) (e₀ : Int) (h : k2 ≠ key) :
    lookup (l.map (fun p => if p.1 == key then (p.1, (⟨v, e₀⟩ : Item α)) else p)) k2
      = lookup l k2 := by
  induction l with
  | nil => simp [lookup]
  | cons p l ih =>
    have hfst : (if p.1 == key then (p.1, (⟨v, e₀⟩ : Item α)) else p).1 = p.1 := by
      split <;> rfl
    by_cases hp2 : p.1 = k2
    · have hne : p.1 ≠ key := by rw [hp2]; exact h
      have hupd : (if p.1 == key then (p.1, (⟨v, e₀⟩ : Item α)) else p) = p := by
        rw [if_neg]; simpa using hne
      simp only [lookup, List.map_cons, hupd]
      rw [List.find?_cons_of_pos _ (by simpa using hp2),
        List.find?_cons_of_pos _ (by simpa using hp2)]
    · simp only [lookup, List.map_cons]
      rw [List.find?_cons_of_neg _ (by rw [hfst]; simpa using hp2),
        List.find?_cons_of_neg _ (by simpa using hp2)]
      exact ih

lemma lookup_unique_of_nodup {α : Type} (l : List (String × Item α))
    (hnd : (l.map (fun p => p.1)).Nodup) (key : String) (it : Item α)
    (h : lookup l key = some it) : ∀ p ∈ l, p.1 = key → p.2 = it := by
  induction l with
  | nil => simp [lookup] at h
  | cons q l ih =>
    have hnd2 : (l.map (fun p => p.1)).Nodup := (List.nodup_cons.1 hnd).2
    have hq : q.1 ∉ l.map (fun p => p.1) := (List.nodup_cons.1 hnd).1
    intro p hp hkey
    rcases List.mem_cons.1 hp with rfl | hmem
    · by_cases hqk : p.1 = key
      · have := h
        rw [lookup, List.find?_cons_of_pos _ (by simpa using hqk)] at this
        simpa using this
      · exact absurd hkey hqk
    · by_cases hqk : q.1 = key
      · exfalso
        apply hq
        rw [hqk, ← hkey]
        exact List.mem_map.2 ⟨p, hmem, rfl⟩
      · have h2 : lookup l key = some it := by
          have := h
          rwa [lookup, List.find?_cons_of_neg _ (by simpa using hqk)] at this
        exact ih hnd2 h2 p hmem hkey

lemma mem_keys_of_live {α : Type} (c : IMCache α) (key : String) (it : Item α)
    (now : Int) (h : lookup c.items key = some it) (hexp : now ≤ it.expiration) :
    key ∈ Keys c now := by
  obtain ⟨pr, hfind, hsnd⟩ : ∃ pr, c.items.find? (fun p => p.1 == key) = some pr ∧ pr.2 = it := by
    simp only [lookup] at h
    cases hf : c.items.find? (fun p => p.1 == key) with
    | none => rw [hf] at h; simp at h
    | some pr => rw [hf] at h; exact ⟨pr, rfl, by simpa using h⟩
  have hmem : pr ∈ c.items := List.mem_of_find?_eq_some hfind
  have hfst : pr.1 = key := by simpa using List.find?_some hfind
  have hlive : (decide (now ≤ pr.2.expiration)) = true := by
    rw [hsnd]; simpa using hexp
  have : pr ∈ c.items.filter (fun p => decide (now ≤ p.2.expiration)) :=
    List.mem_filter.2 ⟨hmem, hlive⟩
  exact hfst ▸ List.mem_map.2 ⟨pr, this, rfl⟩

lemma not_mem_keys_of_expired {α : Type} (c : IMCache α) (key : String) (it : Item α)
    (now : Int) (hnd : (keysOf c).Nodup) (h : lookup c.items key = some it)
    (hexp : now > it.expiration) : key ∉ Keys c now := by
  intro hmem
  obtain ⟨p, hp, hfst⟩ := List.mem_map.1 hmem
  obtain ⟨hpmem, hplive⟩ := List.mem_filter.1 hp
  have := lookup_unique_of_nodup c.items hnd key it h p hpmem hfst
  rw [this] at hplive
  simp at hplive
  omega

end MemCache

/-! ## Helper lemmas: deleteExpired -/

namespace MemCache

lemma deleteExpiredAux_fields {α : Type} :
    ∀ (m : Nat) (c : IMCache α) (now : Int),
      (deleteExpiredAux c now m).maxSize = c.maxSize ∧
      (deleteExpiredAux c now m).interval = c.interval ∧
      (deleteExpiredAux c now m).stopClosed = c.stopClosed
  | 0, c, now => by simp [deleteExpiredAux]
  | m + 1, c, now => by
    by_cases hq : c.expQueue.length > 0
    · by_cases hexp : expOf c.items (c.expQueue.headD ("")) > now
      · rw [deleteExpiredAux, if_pos hq, if_pos hexp]
        exact ⟨rfl, rfl, rfl⟩
      · rw [deleteExpiredAux, if_pos hq, if_neg hexp]
        exact deleteExpiredAux_fields m _ now
    · rw [deleteExpiredAux, if_neg hq]
      exact ⟨rfl, rfl, rfl⟩

lemma deleteExpiredAux_sublist {α : Type} :
    ∀ (m : Nat) (c : IMCache α) (now : Int),
      (deleteExpiredAux c now m).items.Sublist c.items
  | 0, _, _ => by simp [deleteExpiredAux]
  | m + 1, c, now => by
    by_cases hq : c.expQueue.length > 0
    · by_cases hexp : expOf c.items (c.expQueue.headD ("")) > now
      · rw [deleteExpiredAux, if_pos hq, if_pos hexp]
      · rw [deleteExpiredAux, if_pos hq, if_neg hexp]
        exact (deleteExpiredAux_sublist m _ now).trans (List.filter_sublist _)
    · rw [deleteExpiredAux, if_neg hq]

lemma wf_filter_pop {α : Type} (c : IMCache α) (hWF : WF c) (hne : c.expQueue ≠ []) :
    WF { c with
          items := c.items.filter (fun p => p.1 != (heapPop (expOf c.items) c.expQueue).2),
          expQueue := (heapPop (expOf c.items) c.expQueue).1 } ∧
      (heapPop (expOf c.items) c.expQueue).2 ∈ keysOf c ∧
      (c.items.filter
        (fun p => p.1 != (heapPop (expOf c.items) c.expQueue).2)).length + 1
        = c.items.length := by
  obtain ⟨hperm, hnd⟩ := hWF
  have hp := heapPop_append_perm (expOf c.items) c.expQueue hne
  set r := heapPop (expOf c.items) c.expQueue with hr
  have hqnd : c.expQueue.Nodup := hperm.symm.nodup hnd
  have hrnd : (r.1 ++ [r.2]).Nodup := hp.symm.nodup hqnd
  have hnotmem : r.2 ∉ r.1 := by
    obtain ⟨-, -, hdisj⟩ := List.nodup_append.1 hrnd
    intro hmem
    exact hdisj hmem (by simp)
  have hmemq : r.2 ∈ c.expQueue := hp.mem_iff.1 (by simp)
  have hmemk : r.2 ∈ keysOf c := hperm.subset hmemq
  have hnd2 : (c.items.map (fun p => p.1)).Nodup := hnd
  have e4 : (c.items.filter (fun p => p.1 != r.2)).map (fun p => p.1)
      = (c.items.map (fun p => p.1)).erase r.2 := by
    rw [map_fst_filter_ne, ← hnd2.erase_eq_filter r.2]
  have hlen : (c.items.filter (fun p => p.1 != r.2)).length + 1 = c.items.length := by
    have h1 : (c.items.filter (fun p => p.1 != r.2)).length
        = ((c.items.map (fun p => p.1)).erase r.2).length := by
      rw [← e4, List.length_map]
    have h2 : ((c.items.map (fun p => p.1)).erase r.2).length
        = (c.items.map (fun p => p.1)).length - 1 :=
      List.length_erase_of_mem hmemk
    have h3 : 1 ≤ c.items.length := by
      have : r.2 ∈ c.items.map (fun p => p.1) := hmemk
      obtain ⟨p, hp, -⟩ := List.mem_map.1 this
      exact List.length_pos.2 (fun h0 => by simp [h0] at hp)
    rw [h1, h2, List.length_map]
    omega
  refine ⟨⟨?_, ?_⟩, hmemk, hlen⟩
  · show r.1.Perm _
    have e1 : (r.1 ++ [r.2]).erase r.2 = r.1 := by
      rw [List.erase_append_right _ hnotmem, List.erase_cons_head]
      simp
    have e2 : r.1.Perm (c.expQueue.erase r.2) := by
      have h5 := hp.erase r.2
      rwa [e1] at h5
    have e3 : (c.expQueue.erase r.2).Perm ((keysOf c).erase r.2) := hperm.erase r.2
    show r.1.Perm ((c.items.filter (fun p => p.1 != r.2)).map (fun p => p.1))
    rw [e4]
    exact e2.trans e3
  · show (List.map _ _).Nodup
    rw [e4]
    exact hnd.erase r.2

lemma deleteExpiredAux_wf {α : Type} :
    ∀ (m : Nat) (c : IMCache α) (now : Int), WF c → WF (deleteExpiredAux c now m)
  | 0, c, now, h => by simpa [deleteExpiredAux] using h
  | m + 1, c, now, h => by
    by_cases hq : c.expQueue.length > 0
    · by_cases hexp : expOf c.items (c.expQueue.headD ("")) > now
      · rw [deleteExpiredAux, if_pos hq, if_pos hexp]
        exact h
      · rw [deleteExpiredAux, if_pos hq, if_neg hexp]
        have hne : c.expQueue ≠ [] := by
          intro h0
          rw [h0] at hq
          simp at hq
        exact deleteExpiredAux_wf m _ now (wf_filter_pop c h hne).1
    · rw [deleteExpiredAux, if_neg hq]
      exact h

end MemCache

/-! ## Helper lemmas: Set, Get, Delete, Cleanup -/

namespace MemCache

lemma lookup_some_mem {α : Type} (l : List (String × Item α)) (key : String)
    (it : Item α) (h : lookup l key = some it) :
    ∃ pr ∈ l, pr.1 = key ∧ pr.2 = it := by
  simp only [lookup] at h
  cases hf : l.find? (fun p => p.1 == key) with
  | none => rw [hf] at h; simp at h
  | some pr =>
    rw [hf] at h
    refine ⟨pr, List.mem_of_find?_eq_some hf, by simpa using List.find?_some hf, ?_⟩
    simpa using h

lemma lookup_isSome_of_mem_keys {α : Type} (l : List (String × Item α)) (key : String)
    (h : key ∈ l.map (fun p => p.1)) : ∃ it, lookup l key = some it := by
  cases hl : lookup l key with
  | none => exact absurd ((lookup_eq_none_iff l key).1 hl) (by simpa using h)
  | some it => exact ⟨it, rfl⟩

lemma lookup_sublist_none {α : Type} (l1 l2 : List (String × Item α)) (key : String)
    (hsub : l1.Sublist l2) (h : lookup l2 key = none) : lookup l1 key = none := by
  rw [lookup_eq_none_iff] at h ⊢
  exact fun hmem => h ((hsub.map (fun p => p.1)).subset hmem)

lemma Set_existing_items {α : Type} (c : IMCache α) (key : String) (v : α)
    (ttl now : Int) (it0 : Item α) (h : lookup c.items key = some it0) :
    (Set c key v ttl now).items
      = c.items.map (fun p => if p.1 == key then (p.1, ⟨v, now + ttl⟩) else p) := by
  simp only [Set, h]

lemma Set_new_items {α : Type} (c : IMCache α) (key : String) (v : α)
    (ttl now : Int) (h : lookup c.items key = none) :
    (Set c key v ttl now).items
      = (setEvict c now).items ++ [(key, ⟨v, now + ttl⟩)] := by
  simp only [Set, h]

lemma setEvict_sublist {α : Type} (c : IMCache α) (now : Int) :
    (setEvict c now).items.Sublist c.items := by
  simp only [setEvict]
  split
  · split
    · split
      · exact (List.filter_sublist _).trans (deleteExpiredAux_sublist 100 c now)
      · exact deleteExpiredAux_sublist 100 c now
    · exact deleteExpiredAux_sublist 100 c now
  · exact List.Sublist.refl _

lemma setEvict_length_lt {α : Type} (c : IMCache α) (now : Int) (hWF : WF c)
    (hM : 0 < c.maxSize) (hlen : (c.items.length : Int) ≤ c.maxSize) :
    ((setEvict c now).items.length : Int) < c.maxSize := by
  have hmax : (deleteExpired c now).maxSize = c.maxSize :=
    (deleteExpiredAux_fields 100 c now).1
  rw [setEvict]
  by_cases hguard : 0 < c.maxSize ∧ (c.items.length : Int) ≥ c.maxSize
  · rw [if_pos hguard]
    have hwfd : WF (deleteExpired c now) := deleteExpiredAux_wf 100 c now hWF
    have hdlen : (deleteExpired c now).items.length ≤ c.items.length :=
      (deleteExpiredAux_sublist 100 c now).length_le
    by_cases hfull : ((deleteExpired c now).items.length : Int) ≥ (deleteExpired c now).maxSize
    · rw [if_pos hfull]
      have hdpos : 0 < (deleteExpired c now).items.length := by omega
      have hqpos : (deleteExpired c now).expQueue.length > 0 := by
        have hpl : (deleteExpired c now).expQueue.length
            = (keysOf (deleteExpired c now)).length := hwfd.1.length_eq
        have hkl : (keysOf (deleteExpired c now)).length
            = (deleteExpired c now).items.length := List.length_map _ _
        omega
      rw [if_pos hqpos]
      have hne : (deleteExpired c now).expQueue ≠ [] := by
        intro h0
        rw [h0] at hqpos
        simp at hqpos
      have hpop := (wf_filter_pop (deleteExpired c now) hwfd hne).2.2
      show (((deleteExpired c now).items.filter _).length : Int) < c.maxSize
      omega
    · rw [if_neg hfull]
      omega
  · rw [if_neg hguard]
    have : ¬ ((c.items.length : Int) ≥ c.maxSize) := fun hge => hguard ⟨hM, hge⟩
    omega

lemma Set_length_le {α : Type} (c : IMCache α) (key : String) (v : α)
    (ttl now : Int) (hWF : WF c) (hM : 0 < c.maxSize)
    (hlen : (c.items.length : Int) ≤ c.maxSize) :
    ((Set c key v ttl now).items.length : Int) ≤ c.maxSize := by
  cases hl : lookup c.items key with
  | some it0 =>
    rw [Set_existing_items c key v ttl now it0 hl, List.length_map]
    exact hlen
  | none =>
    rw [Set_new_items c key v ttl now hl, List.length_append]
    have := setEvict_length_lt c now hWF hM hlen
    simp only [List.length_cons, List.length_nil]
    push_cast
    omega

lemma liveCount_le_length {α : Type} (c : IMCache α) (now : Int) :
    liveCount c now ≤ c.items.length := by
  rw [liveCount, Keys, List.length_map]
  exact List.length_filter_le _ _

lemma get_after_set {α : Type} (c : IMCache α) (key : String) (v : α)
    (ttl now : Int) (httl : 0 ≤ ttl) :
    Get (Set c key v ttl now) key now = some v := by
  have hfound : lookup (Set c key v ttl now).items key = some ⟨v, now + ttl⟩ := by
    cases hl : lookup c.items key with
    | some it0 =>
      rw [Set_existing_items c key v ttl now it0 hl]
      exact lookup_map_update_self c.items key v (now + ttl) (by rw [hl]; rfl)
    | none =>
      rw [Set_new_items c key v ttl now hl]
      exact lookup_append_self _ key _
        (lookup_sublist_none _ _ key (setEvict_sublist c now) hl)
  rw [Get, hfound]
  simp only [if_neg (by omega : ¬ now > now + ttl)]

end MemCache

namespace MemCache

lemma expQueue_length_pos {α : Type} (c : IMCache α) (hWF : WF c)
    (hne : c.items ≠ []) : c.expQueue.length > 0 := by
  have h1 : c.expQueue.length = (keysOf c).length := hWF.1.length_eq
  have h2 : (keysOf c).length = c.items.length := List.length_map _ _
  have h3 : 0 < c.items.length := List.length_pos.2 hne
  omega

lemma deleteExpired_id_of_live {α : Type} (c : IMCache α) (now : Int) (hWF : WF c)
    (hlive : ∀ p ∈ c.items, now < p.2.expiration) (hne : c.items ≠ []) :
    deleteExpired c now = c := by
  have hq : c.expQueue.length > 0 := expQueue_length_pos c hWF hne
  have hqne : c.expQueue ≠ [] := by
    intro h0
    rw [h0] at hq
    simp at hq
  have hhead : c.expQueue.headD ("") ∈ c.expQueue := by
    cases hc : c.expQueue with
    | nil => exact absurd hc hqne
    | cons x t => simp
  have hmemk : c.expQueue.headD ("") ∈ keysOf c := hWF.1.subset hhead
  obtain ⟨it, hit⟩ := lookup_isSome_of_mem_keys c.items _ hmemk
  obtain ⟨pr, hpr, hfst, hsnd⟩ := lookup_some_mem c.items _ it hit
  have hexp : expOf c.items (c.expQueue.headD ("")) > now := by
    rw [expOf, hit]
    have hx := hlive pr hpr
    rw [hsnd] at hx
    exact hx
  rw [deleteExpired, deleteExpiredAux, if_pos hq, if_pos hexp]

lemma Set_new_full_evicts_one {α : Type} (c : IMCache α) (key : String) (v : α)
    (ttl now : Int) (hWF : WF c) (hM : 0 < c.maxSize)
    (hl : lookup c.items key = none)
    (hfull : (c.items.length : Int) = c.maxSize)
    (hlive : ∀ p ∈ c.items, now < p.2.expiration) :
    ∃ vk, vk ∈ keysOf c ∧
      (keysOf (Set c key v ttl now)).Perm (key :: (keysOf c).erase vk) := by
  have hne : c.items ≠ [] := by
    intro h0
    rw [h0] at hfull
    simp at hfull
    omega
  have hid : deleteExpired c now = c := deleteExpired_id_of_live c now hWF hlive hne
  have hq : c.expQueue.length > 0 := expQueue_length_pos c hWF hne
  have hqne : c.expQueue ≠ [] := by
    intro h0
    rw [h0] at hq
    simp at hq
  have hguard : 0 < c.maxSize ∧ (c.items.length : Int) ≥ c.maxSize :=
    ⟨hM, le_of_eq hfull.symm⟩
  have hsev : setEvict c now =
      { c with
        items := c.items.filter (fun q0 => q0.1 != (heapPop (expOf c.items) c.expQueue).2),
        expQueue := (heapPop (expOf c.items) c.expQueue).1 } := by
    simp only [setEvict, hid]
    rw [if_pos hguard, if_pos (le_of_eq hfull.symm), if_pos hq]
  have hmemk : (heapPop (expOf c.items) c.expQueue).2 ∈ keysOf c :=
    (wf_filter_pop c hWF hqne).2.1
  refine ⟨(heapPop (expOf c.items) c.expQueue).2, hmemk, ?_⟩
  have hnd2 : (c.items.map (fun q0 => q0.1)).Nodup := hWF.2
  have hkeys : keysOf (Set c key v ttl now)
      = ((c.items.filter
          (fun q0 => q0.1 != (heapPop (expOf c.items) c.expQueue).2)).map
            (fun q0 => q0.1)) ++ [key] := by
    show (Set c key v ttl now).items.map (fun q0 => q0.1) = _
    rw [Set_new_items c key v ttl now hl, hsev, List.map_append]
    rfl
  rw [hkeys, map_fst_filter_ne, ← hnd2.erase_eq_filter]
  exact List.perm_append_singleton key _

lemma Delete_length_le {α : Type} (c : IMCache α) (key : String) :
    (Delete c key).items.length ≤ c.items.length := by
  cases hl : lookup c.items key with
  | some it =>
    simp only [Delete, hl]
    exact List.length_filter_le _ _
  | none => simp only [Delete, hl]; exact le_refl _

end MemCache

namespace HttpCache

lemma m_mem_keys_of_live {α : Type} (c : MCache α) (key : String) (it : MItem α)
    (now : Int) (h : mLookup c.items key = some it) (hexp : now ≤ it.expiration) :
    key ∈ mKeys c now := by
  obtain ⟨pr, hfind, hsnd⟩ : ∃ pr, c.items.find? (fun p => p.1 == key) = some pr ∧ pr.2 = it := by
    simp only [mLookup] at h
    cases hf : c.items.find? (fun p => p.1 == key) with
    | none => rw [hf] at h; simp at h
    | some pr => rw [hf] at h; exact ⟨pr, rfl, by simpa using h⟩
  have hmem : pr ∈ c.items := List.mem_of_find?_eq_some hfind
  have hfst : pr.1 = key := by simpa using List.find?_some hfind
  have hlive : (decide (now ≤ pr.2.expiration)) = true := by
    rw [hsnd]
    simpa using hexp
  have hfil : pr ∈ c.items.filter (fun p => decide (now ≤ p.2.expiration)) :=
    List.mem_filter.2 ⟨hmem, hlive⟩
  exact hfst ▸ List.mem_map.2 ⟨pr, hfil, rfl⟩

end HttpCache

/-! ## The claims -/

/-- C1: the spec and the repository's own tests (`TestLRUEviction`,
`TestLRUSequence`) demand least-recently-used eviction in which `Get`
refreshes recency, so that with `maxSize = 2` the sequence
`Set("a"), Set("b"), Get("a"), Set("c")` evicts `"b"` and keeps `"a"`.
The code has no recency marks at all: `Get` holds only a read lock and
mutates nothing, and the capacity path pops the expiration-heap root,
i.e. the earliest-expiring entry — here `"a"`.  This theorem evaluates
both variants of the code on exactly that scenario (timestamps in
nanoseconds, ttl one minute): the size does stay 2, but `"a"` is the
evicted victim and `"b"` survives, contradicting the claim and the
tests. -/
theorem C1_lru_eviction_code_bug :
    (let c2 := MemCache.Set (MemCache.Set ((MemCache.New Nat 60000000000 2).1)
        ("a") 1 60000000000 0) ("b") 2 60000000000 1
     let c3 := MemCache.Set c2 ("c") 3 60000000000 3
     MemCache.Get c2 ("a") 2 = some 1 ∧
     MemCache.Size c3 = 2 ∧
     MemCache.Get c3 ("a") 3 = none ∧
     MemCache.Get c3 ("b") 3 = some 2 ∧
     MemCache.Get c3 ("c") 3 = some 3) ∧
    (let d2 := HttpCache.mSet (HttpCache.mSet ((HttpCache.mNew Nat 60000000000 2).1)
        ("a") 1 60000000000 0) ("b") 2 60000000000 1
     let d3 := HttpCache.mSet d2 ("c") 3 60000000000 3
     HttpCache.mGet d2 ("a") 2 = some 1 ∧
     d3.items.length = 2 ∧
     HttpCache.mGet d3 ("a") 3 = none ∧
     HttpCache.mGet d3 ("b") 3 = some 2 ∧
     HttpCache.mGet d3 ("c") 3 = some 3) := by
  exact ⟨⟨by decide, by decide, by decide, by decide, by decide⟩,
    ⟨by decide, by decide, by decide, by decide, by decide⟩⟩

/-- C2 counterexample: the claim promises that a `Set` of a new key
that would exceed the bound evicts exactly one victim.  Here a cache
with `maxSize = 2` holds two entries whose expiration equals the
current instant; both are still live (`Get` returns them, since lookup
treats `now ≤ expiration` as live), yet the capacity path of the
triggering `Set` removes both of them (`deleteExpired` drops every
entry with `expiration ≤ now`), so two victims fall, not one. -/
theorem C2_capacity_counterexample :
    (let c := MemCache.Set (MemCache.Set ((MemCache.New Nat 60 2).1)
        ("a") 1 100 0) ("b") 2 100 0
     ((c.items.length : Int) = c.maxSize ∧
      MemCache.Get c ("a") 100 = some 1 ∧
      MemCache.Get c ("b") 100 = some 2 ∧
      MemCache.lookup c.items ("z") = none) ∧
     (let c2 := MemCache.Set c ("z") 9 60 100
      MemCache.lookup c2.items ("a") = none ∧
      MemCache.lookup c2.items ("b") = none ∧
      c2.items.length = 1)) := by
  exact ⟨⟨by decide, by decide, by decide, by decide⟩, by decide, by decide, by decide⟩

/-- C2 amended: for a well-formed cache (heap and map hold the same,
distinct keys) with `0 < maxSize` and physical size within the bound,
every single mutating operation (`Set`, `Delete`, `Cleanup`) leaves the
number of live, non-expired entries at most `maxSize`; and when a `Set`
of a new key finds the cache full and no entry has expiration ≤ now,
exactly one victim is evicted: the new key set is, up to permutation,
the old key set minus one existing key plus the new key.  (When entries
with expiration ≤ now exist, the triggering `Set` may instead remove
several of them — including boundary entries that `Get` still serves —
as the counterexample shows.) -/
theorem C2_capacity_bound_amended {α : Type} (c : MemCache.IMCache α) (key : String)
    (v : α) (ttl now : Int) (hWF : MemCache.WF c) (hM : 0 < c.maxSize)
    (hlen : (c.items.length : Int) ≤ c.maxSize) :
    ((MemCache.liveCount (MemCache.Set c key v ttl now) now : Int) ≤ c.maxSize ∧
     (MemCache.liveCount (MemCache.Delete c key) now : Int) ≤ c.maxSize ∧
     (MemCache.liveCount (MemCache.Cleanup c now) now : Int) ≤ c.maxSize) ∧
    (MemCache.lookup c.items key = none → (c.items.length : Int) = c.maxSize →
      (∀ p ∈ c.items, now < p.2.expiration) →
      ∃ vk, vk ∈ MemCache.keysOf c ∧
        (MemCache.keysOf (MemCache.Set c key v ttl now)).Perm
          (key :: (MemCache.keysOf c).erase vk)) := by
  refine ⟨⟨?_, ?_, ?_⟩, ?_⟩
  · have h1 := MemCache.Set_length_le c key v ttl now hWF hM hlen
    have h2 := MemCache.liveCount_le_length (MemCache.Set c key v ttl now) now
    omega
  · have h1 := MemCache.Delete_length_le c key
    have h2 := MemCache.liveCount_le_length (MemCache.Delete c key) now
    omega
  · have h1 := (MemCache.deleteExpiredAux_sublist 100 c now).length_le
    have h2 := MemCache.liveCount_le_length (MemCache.Cleanup c now) now
    have h3 : (MemCache.Cleanup c now).items.length
        = (MemCache.deleteExpiredAux c now 100).items.length := rfl
    omega
  · intro hl hfull hlive
    exact MemCache.Set_new_full_evicts_one c key v ttl now hWF hM hl hfull hlive

/-- C2 witness: the amended bound applied to a concrete well-formed
two-entry cache at capacity, with all entries live, so the
exactly-one-eviction clause fires as well. -/
theorem C2_capacity_bound_amended_witness :
    (let c := MemCache.Set (MemCache.Set ((MemCache.New Nat 60 2).1)
        ("a") 1 100 0) ("b") 2 101 1
     ((MemCache.liveCount (MemCache.Set c ("z") 9 50 5) 5 : Int) ≤ c.maxSize ∧
      (MemCache.liveCount (MemCache.Delete c ("z")) 5 : Int) ≤ c.maxSize ∧
      (MemCache.liveCount (MemCache.Cleanup c 5) 5 : Int) ≤ c.maxSize) ∧
     (MemCache.lookup c.items ("z") = none → (c.items.length : Int) = c.maxSize →
       (∀ p ∈ c.items, 5 < p.2.expiration) →
       ∃ vk, vk ∈ MemCache.keysOf c ∧
         (MemCache.keysOf (MemCache.Set c ("z") 9 50 5)).Perm
           (("z") :: (MemCache.keysOf c).erase vk))) :=
  C2_capacity_bound_amended
    (MemCache.Set (MemCache.Set ((MemCache.New Nat 60 2).1) ("a") 1 100 0) ("b") 2 101 1)
    ("z") 9 50 5 (by decide) (by decide) (by decide)

/-- C3 counterexample: the claim says `Size` counts live entries only
and always equals the length of `Keys`.  The source itself disagrees
(its comment on `Size` reads "including expired ones"): a cache holding
one entry whose ttl has passed reports `Size = 1` while `Keys` is
empty and `Get` misses. -/
theorem C3_size_counterexample :
    (let c := MemCache.Set ((MemCache.New Nat 60 0).1) ("k") 7 10 0
     MemCache.Size c = 1 ∧
     (MemCache.Keys c 11).length = 0 ∧
     MemCache.Get c ("k") 11 = none) := by
  exact ⟨by decide, by decide, by decide⟩

/-- C3 amended: `Size()` returns `len(c.items)`, the count of
physically present entries including expired ones, so it only bounds
`Keys` from above: the length of `Keys()` never exceeds `Size()`, with
equality exactly when no physically present entry has expired. -/
theorem C3_size_amended {α : Type} (c : MemCache.IMCache α) (now : Int) :
    MemCache.Size c = c.items.length ∧
    (MemCache.Keys c now).length ≤ MemCache.Size c :=
  ⟨rfl, MemCache.liveCount_le_length c now⟩

/-- C4 counterexample: the claim says a `Get` that finds an expired
entry removes it from the store.  `Get` holds only a read lock and
mutates nothing: here the entry for `"k"` expired at 10, `Get` at 11
reports a miss, and the entry is still physically present in the map
afterwards (the embedded `Get` is a pure function of the state, exactly
because the code does not write). -/
theorem C4_lazy_removal_counterexample :
    (let c := MemCache.Set ((MemCache.New Nat 60 0).1) ("k") 7 10 0
     MemCache.Get c ("k") 11 = none ∧
     MemCache.lookup c.items ("k") = some ⟨7, 10⟩) := by
  exact ⟨by decide, by decide⟩

/-- C4 amended: a `Get` that discovers an expired entry returns
`found = false` but performs no removal; the entry stays physically
present (the cache state is untouched — `Get` is read-only in the code,
so its embedding takes no state out) until `Cleanup`, `Delete` or a
capacity eviction drops it. -/
theorem C4_get_expired_amended {α : Type} (c : MemCache.IMCache α) (key : String)
    (it : MemCache.Item α) (now : Int) (h : MemCache.lookup c.items key = some it)
    (hexp : now > it.expiration) :
    MemCache.Get c key now = none ∧ MemCache.lookup c.items key ≠ none := by
  constructor
  · simp only [MemCache.Get, h]
    rw [if_pos hexp]
  · rw [h]
    simp

/-- C4 witness: the amended statement at the concrete expired entry of
the counterexample. -/
theorem C4_get_expired_amended_witness :
    MemCache.Get (MemCache.Set ((MemCache.New Nat 60 0).1) ("k") 7 10 0) ("k") 11 = none ∧
    MemCache.lookup (MemCache.Set ((MemCache.New Nat 60 0).1) ("k") 7 10 0).items ("k")
      ≠ none :=
  C4_get_expired_amended (MemCache.Set ((MemCache.New Nat 60 0).1) ("k") 7 10 0)
    ("k") ⟨7, 10⟩ 11 (by decide) (by decide)

/-- C5 counterexample: the claim (whose sources include `main.go`'s
`Set`) promises that setting an existing key never evicts any other
entry, even at capacity.  The `main.go` variant checks capacity before
it looks at the key: with `maxSize = 2` and keys `"a"` (expires 100)
and `"b"` (expires 160) both present, `Set("b", ...)` at time 10 first
calls `evictOne`, which deletes the earliest-expiring entry `"a"` —
an eviction triggered by an update-in-place. -/
theorem C5_update_in_place_counterexample :
    (let d := HttpCache.mSet (HttpCache.mSet ((HttpCache.mNew Nat 60 2).1)
        ("a") 1 100 0) ("b") 2 160 0
     HttpCache.mLookup d.items ("b") = some ⟨2, 160⟩ ∧
     HttpCache.mLookup d.items ("a") = some ⟨1, 100⟩ ∧
     (let d3 := HttpCache.mSet d ("b") 5 60 10
      HttpCache.mLookup d3.items ("a") = none ∧
      d3.items.length = 1)) := by
  exact ⟨by decide, by decide, by decide, by decide⟩

/-- C5 amended: in the core engine (`pkg/cache`), `Set` on an existing
key is a pure in-place update — the key maps to the new value and
expiration `now + ttl`, the physical size is unchanged, and every
other key's entry is exactly what it was, whatever the capacity bound.
(The separate `main.go` variant violates this: it runs its capacity
eviction before checking whether the key exists, as the counterexample
shows.) -/
theorem C5_update_in_place_amended {α : Type} (c : MemCache.IMCache α) (key : String)
    (v : α) (ttl now : Int) (it0 : MemCache.Item α)
    (h : MemCache.lookup c.items key = some it0) :
    MemCache.lookup (MemCache.Set c key v ttl now).items key = some ⟨v, now + ttl⟩ ∧
    (MemCache.Set c key v ttl now).items.length = c.items.length ∧
    ∀ k2, k2 ≠ key →
      MemCache.lookup (MemCache.Set c key v ttl now).items k2
        = MemCache.lookup c.items k2 := by
  rw [MemCache.Set_existing_items c key v ttl now it0 h]
  refine ⟨?_, List.length_map _ _, ?_⟩
  · exact MemCache.lookup_map_update_self c.items key v (now + ttl) (by rw [h]; rfl)
  · intro k2 hk2
    exact MemCache.lookup_map_update_ne c.items key k2 v (now + ttl) hk2

/-- C5 witness: the in-place update applied to a concrete two-entry
cache at capacity, updating the existing key `"a"`. -/
theorem C5_update_in_place_amended_witness :
    MemCache.lookup (MemCache.Set (MemCache.Set (MemCache.Set ((MemCache.New Nat 60 2).1)
        ("a") 1 100 0) ("b") 2 101 1) ("a") 9 50 5).items ("a") = some ⟨9, 55⟩ ∧
    (MemCache.Set (MemCache.Set (MemCache.Set ((MemCache.New Nat 60 2).1)
        ("a") 1 100 0) ("b") 2 101 1) ("a") 9 50 5).items.length
      = (MemCache.Set (MemCache.Set ((MemCache.New Nat 60 2).1)
        ("a") 1 100 0) ("b") 2 101 1).items.length ∧
    ∀ k2, k2 ≠ ("a") →
      MemCache.lookup (MemCache.Set (MemCache.Set (MemCache.Set ((MemCache.New Nat 60 2).1)
          ("a") 1 100 0) ("b") 2 101 1) ("a") 9 50 5).items k2
        = MemCache.lookup (MemCache.Set (MemCache.Set ((MemCache.New Nat 60 2).1)
          ("a") 1 100 0) ("b") 2 101 1).items k2 :=
  C5_update_in_place_amended
    (MemCache.Set (MemCache.Set ((MemCache.New Nat 60 2).1) ("a") 1 100 0) ("b") 2 101 1)
    ("a") 9 50 5 ⟨1, 100⟩ (by decide)

/-- C6: an entry whose expiration lies strictly in the past is
invisible to every lookup even while still physically present: `Get`
misses, `Exists` is false, and `Keys` omits the key.  Stated for any
cache state whose keys are distinct (as Go map keys are), any present
entry, and any instant strictly past its expiration. -/
theorem C6_expired_entry_invisible {α : Type} (c : MemCache.IMCache α) (key : String)
    (it : MemCache.Item α) (now : Int)
    (hnd : (MemCache.keysOf c).Nodup)
    (h : MemCache.lookup c.items key = some it)
    (hexp : now > it.expiration) :
    MemCache.Get c key now = none ∧
    MemCache.ExistsKey c key now = false ∧
    key ∉ MemCache.Keys c now := by
  refine ⟨?_, ?_, MemCache.not_mem_keys_of_expired c key it now hnd h hexp⟩
  · simp only [MemCache.Get, h]
    rw [if_pos hexp]
  · simp only [MemCache.ExistsKey, h]
    simpa using hexp

/-- C6 witness: the invisibility of a concrete expired entry (expires
at 10, looked up at 11) that is still physically stored. -/
theorem C6_expired_entry_invisible_witness :
    MemCache.Get (MemCache.Set ((MemCache.New Nat 60 0).1) ("k") 7 10 0) ("k") 11 = none ∧
    MemCache.ExistsKey (MemCache.Set ((MemCache.New Nat 60 0).1) ("k") 7 10 0) ("k") 11
      = false ∧
    ("k") ∉ MemCache.Keys (MemCache.Set ((MemCache.New Nat 60 0).1) ("k") 7 10 0) 11 :=
  C6_expired_entry_invisible (MemCache.Set ((MemCache.New Nat 60 0).1) ("k") 7 10 0)
    ("k") ⟨7, 10⟩ 11 (by decide) (by decide) (by decide)

/-- C7 counterexample: the claim says the implementation guards against
double-stop.  Both variants implement `Stop` as a bare `close(c.stop)`
with no guard: the first `Stop` on a fresh cache succeeds, and a second
`Stop` is the runtime panic of closing an already-closed channel
(modelled as `none`) — exactly the unguarded fault the claim rules
out. -/
theorem C7_double_stop_counterexample :
    (MemCache.Stop ((MemCache.New Nat 60 2).1)).isSome = true ∧
    (Option.bind (MemCache.Stop ((MemCache.New Nat 60 2).1)) MemCache.Stop).isNone
      = true ∧
    (HttpCache.mStop ((HttpCache.mNew Nat 60 2).1)).isSome = true ∧
    (Option.bind (HttpCache.mStop ((HttpCache.mNew Nat 60 2).1)) HttpCache.mStop).isNone
      = true := by
  exact ⟨by decide, by decide, by decide, by decide⟩

/-- C7 amended: `Stop` closes the stop channel unconditionally: called
once on a freshly constructed cache it succeeds, and calling it a
second time on the same cache panics (close of a closed channel) —
there is no double-stop guard, neither a no-op nor a documented fatal
path.  Stated for every construction argument of both variants. -/
theorem C7_double_stop_amended (interval maxSize : Int) :
    (MemCache.Stop ((MemCache.New Nat interval maxSize).1)).isSome = true ∧
    Option.bind (MemCache.Stop ((MemCache.New Nat interval maxSize).1)) MemCache.Stop
      = none ∧
    (HttpCache.mStop ((HttpCache.mNew Nat interval maxSize).1)).isSome = true ∧
    Option.bind (HttpCache.mStop ((HttpCache.mNew Nat interval maxSize).1)) HttpCache.mStop
      = none := by
  refine ⟨rfl, ?_, rfl, ?_⟩
  · simp [MemCache.New, MemCache.Stop]
  · simp [HttpCache.mNew, HttpCache.mStop]

/-- C8 counterexample: the claim says a non-positive cleanup interval
is normalized to "sweeper disabled" and construction does not fault.
The background goroutine's first statement is `time.NewTicker(interval)`,
which panics for any non-positive duration (Go standard library), so
constructing with interval 0 or −5 crashes the sweeper goroutine — and
with it the process — while a positive interval does not. -/
theorem C8_nonpositive_interval_counterexample :
    (MemCache.New Nat 0 10).2 = none ∧
    (MemCache.New Nat (-5) 10).2 = none ∧
    (MemCache.New Nat 1 10).2 = some () := by
  exact ⟨by decide, by decide, by decide⟩

/-- C8 amended: construction spawns a sweeper whose `time.NewTicker`
call panics exactly when the configured interval is non-positive;
nothing normalizes such an interval to "disabled".  With a positive
interval the sweeper starts, the cache starts empty, and foreground
operations work (a fresh `Set` is immediately retrievable for any
non-negative ttl). -/
theorem C8_nonpositive_interval_amended (interval maxSize : Int) (key : String)
    (v : Nat) (ttl now : Int) (hi : 0 < interval) (httl : 0 ≤ ttl) :
    (MemCache.New Nat interval maxSize).2 = some () ∧
    MemCache.Size (MemCache.New Nat interval maxSize).1 = 0 ∧
    MemCache.Get (MemCache.Set (MemCache.New Nat interval maxSize).1 key v ttl now)
      key now = some v := by
  refine ⟨?_, rfl, MemCache.get_after_set _ key v ttl now httl⟩
  simp only [MemCache.New, MemCache.cleanupStart, MemCache.newTicker]
  rw [if_neg (by omega : ¬ interval ≤ 0)]

/-- C8 witness: the amended statement at interval 1, `maxSize` 10, a
concrete key, value and ttl. -/
theorem C8_nonpositive_interval_amended_witness :
    (MemCache.New Nat 1 10).2 = some () ∧
    MemCache.Size (MemCache.New Nat 1 10).1 = 0 ∧
    MemCache.Get (MemCache.Set (MemCache.New Nat 1 10).1 ("k") 7 60 0) ("k") 0 = some 7 :=
  C8_nonpositive_interval_amended 1 10 ("k") 7 60 0 (by decide) (by decide)

/-- C9: the round-trip law: for every cache state, key, value and
ttl > 0, `Set(key, value, ttl)` immediately followed by `Get(key)` (at
the same clock reading) returns the stored value, unmodified, with
found = true — through both the update-in-place path and the
capacity/eviction path for a new key. -/
theorem C9_set_get_roundtrip {α : Type} (c : MemCache.IMCache α) (key : String)
    (v : α) (ttl now : Int) (httl : 0 < ttl) :
    MemCache.Get (MemCache.Set c key v ttl now) key now = some v :=
  MemCache.get_after_set c key v ttl now (le_of_lt httl)

/-- C9 witness: the round-trip on a concrete cache that is at capacity
(so the eviction path runs) and on a key that already exists (the
in-place path), both at ttl 50. -/
theorem C9_set_get_roundtrip_witness :
    MemCache.Get (MemCache.Set (MemCache.Set (MemCache.Set ((MemCache.New Nat 60 2).1)
        ("a") 1 100 0) ("b") 2 101 1) ("z") 9 50 5) ("z") 5 = some 9 :=
  C9_set_get_roundtrip
    (MemCache.Set (MemCache.Set ((MemCache.New Nat 60 2).1) ("a") 1 100 0) ("b") 2 101 1)
    ("z") 9 50 5 (by decide)

/-- C10: expiry is inclusive at the boundary in both variants: an
entry whose expiration equals the current instant is still served —
`Get` returns its value, `Exists` is true, and `Keys` lists the key;
only a strictly later instant hides it (`now > expiration`). -/
theorem C10_boundary_inclusive {α β : Type} (c : MemCache.IMCache α)
    (d : HttpCache.MCache β) (key key2 : String) (it : MemCache.Item α)
    (mit : HttpCache.MItem β) (now now2 : Int)
    (h : MemCache.lookup c.items key = some it) (he : it.expiration = now)
    (hm : HttpCache.mLookup d.items key2 = some mit) (he2 : mit.expiration = now2) :
    MemCache.Get c key now = some it.value ∧
    MemCache.ExistsKey c key now = true ∧
    key ∈ MemCache.Keys c now ∧
    HttpCache.mGet d key2 now2 = some mit.value ∧
    HttpCache.mExistsKey d key2 now2 = true ∧
    key2 ∈ HttpCache.mKeys d now2 := by
  refine ⟨?_, ?_, MemCache.mem_keys_of_live c key it now h (le_of_eq he.symm),
    ?_, ?_, HttpCache.m_mem_keys_of_live d key2 mit now2 hm (le_of_eq he2.symm)⟩
  · simp only [MemCache.Get, h]
    rw [if_neg (by omega : ¬ now > it.expiration)]
  · simp only [MemCache.ExistsKey, h]
    simp [he]
  · simp only [HttpCache.mGet, hm]
    rw [if_neg (by omega : ¬ now2 > mit.expiration)]
  · simp only [HttpCache.mExistsKey, hm]
    simp [he2]

/-- C10 witness: a concrete entry expiring exactly at 100, observed at
100, in each variant. -/
theorem C10_boundary_inclusive_witness :
    MemCache.Get (MemCache.Set ((MemCache.New Nat 60 2).1) ("x") 3 100 0) ("x") 100
      = some 3 ∧
    MemCache.ExistsKey (MemCache.Set ((MemCache.New Nat 60 2).1) ("x") 3 100 0) ("x") 100
      = true ∧
    ("x") ∈ MemCache.Keys (MemCache.Set ((MemCache.New Nat 60 2).1) ("x") 3 100 0) 100 ∧
    HttpCache.mGet (HttpCache.mSet ((HttpCache.mNew Nat 60 2).1) ("x") 3 100 0) ("x") 100
      = some 3 ∧
    HttpCache.mExistsKey (HttpCache.mSet ((HttpCache.mNew Nat 60 2).1) ("x") 3 100 0)
      ("x") 100 = true ∧
    ("x") ∈ HttpCache.mKeys (HttpCache.mSet ((HttpCache.mNew Nat 60 2).1) ("x") 3 100 0)
      100 :=
  C10_boundary_inclusive (MemCache.Set ((MemCache.New Nat 60 2).1) ("x") 3 100 0)
    (HttpCache.mSet ((HttpCache.mNew Nat 60 2).1) ("x") 3 100 0)
    ("x") ("x") ⟨3, 100⟩ ⟨3, 100⟩ 100 100
    (by decide) (by decide) (by decide) (by decide)
